import Mathlib

/-!
Verification development for the skill-master scripts:
`init_skill.py`, `quick_validate_skill.py`, `package_skill.py`,
`init_copilot_asset.py`.

The filesystem is modelled as an association list from absolute paths
(lists of components) to entries.  `Path.resolve()` is modelled as the
identity inside the validator (paths handed to the tools are taken to be
absolute and already resolved); the packager keeps its own component-wise
symlink resolution because its file filter inspects resolved paths.
Python machine behaviour that the scripts rely on (e.g. `str.find`,
`str.strip`, `re.search` with `MULTILINE`) is embedded at the character
level.
-/

deriving instance DecidableEq for Except

set_option maxRecDepth 8000

namespace SkillMaster

/-- A path is a list of components of an absolute path, root first. -/
abbrev FsPath := List String

/-- A filesystem entry: directory, regular file with text content,
symbolic link with an absolute target, or a written zip archive
(a regular file whose payload we keep structured). -/
inductive Entry where
  | dir : Entry
  | file : String → Entry
  | symlink : FsPath → Entry
  | zip : List (String × String) → Entry
deriving DecidableEq, Repr

/-- The filesystem: an association list, newest entry first. -/
abbrev Fs := List (FsPath × Entry)

/-- Look up the entry stored at a path (first match wins). -/
def fsFind : Fs → FsPath → Option Entry
  | [], _ => none
  | (q, e) :: t, p => if q = p then some e else fsFind t p

/-- `Path.exists()` on the model. -/
def pathExists (fs : Fs) (p : FsPath) : Bool :=
  (fsFind fs p).isSome

/-- Write (or overwrite) the entry at a path. -/
def fsSet (fs : Fs) (p : FsPath) (e : Entry) : Fs :=
  (p, e) :: fs

/-- All nonempty prefixes of a path, shortest first. -/
def pathPrefixes : FsPath → List FsPath
  | [] => []
  | c :: rest => [c] :: (pathPrefixes rest).map (c :: ·)

/-- `Path.mkdir(parents=True, exist_ok=True)`: create every missing
ancestor (and the path itself) as a directory, leaving existing entries
alone. -/
def mkdirParents (fs : Fs) (p : FsPath) : Fs :=
  (pathPrefixes p).foldl
    (fun f q => if pathExists f q then f else fsSet f q Entry.dir) fs

/-- `Path.name`: the final component of a path. -/
def lastName (p : FsPath) : String :=
  p.getLastD ""

/-- Render a path the way Python prints an absolute `Path`. -/
def pathStr (p : FsPath) : String :=
  "/" ++ String.intercalate "/" p

/-- No entry of the filesystem lies at or below `p`. -/
def freshUnder (fs : Fs) (p : FsPath) : Bool :=
  fs.all (fun pe => !(p.isPrefixOf pe.1))

/-! ### Character-level utilities (Python string semantics) -/

/-- Python `\s` on the ASCII whitespace characters. -/
def isPyWs (c : Char) : Bool :=
  c = ' ' || c = '\t' || c = '\n' || c = '\r' || c = '\x0b' || c = '\x0c'

/-- A lowercase letter or a digit, the character class of the
`agentskills.io` name rule. -/
def isLowerAlnum (c : Char) : Bool :=
  ('a' ≤ c && c ≤ 'z') || ('0' ≤ c && c ≤ '9')

/-- State machine for the regex `[a-z0-9]+(-[a-z0-9]+)*` applied to a
whole string: `needAl` records whether the next character must open a new
alphanumeric segment (at the start and right after a hyphen). -/
def kebabFrom : Bool → List Char → Bool
  | needAl, [] => !needAl
  | needAl, c :: rest =>
    if c = '-' then !needAl && kebabFrom true rest
    else isLowerAlnum c && kebabFrom false rest

/-- `_SKILL_NAME_RE.fullmatch` / `_NAME_RE.fullmatch` on a character
list. -/
def kebabMatch (l : List Char) : Bool :=
  kebabFrom true l

/-- `str.find(needle, i)` scanning the remaining characters; the second
argument is the suffix of the haystack starting at index `i`. -/
def findSubAux (needle : List Char) : List Char → Nat → Option Nat
  | [], i => if needle.isEmpty then some i else none
  | c :: t, i =>
    if needle.isPrefixOf (c :: t) then some i else findSubAux needle t (i + 1)

/-- The needle occurs in `l` at index `j`. -/
def occursAt (needle l : List Char) (j : Nat) : Bool :=
  needle.isPrefixOf (l.drop j)

/-- The four characters of the closing-delimiter search `text.find("\n---", 4)`. -/
def nlMarker : List Char := ['\n', '-', '-', '-']

/-- `text.startswith("---\n")`. -/
def markerStart (text : String) : Bool :=
  ['-', '-', '-', '\n'].isPrefixOf text.data

/-- `_extract_frontmatter` from `quick_validate_skill.py`: require the
opening `---` line, search for `"\n---"` from index 4, and return the
slice strictly between them. -/
def _extract_frontmatter (text : String) : Except String String :=
  if markerStart text then
    match findSubAux nlMarker (text.data.drop 4) 4 with
    | none => .error "Invalid YAML frontmatter (missing closing \x27---\x27)"
    | some e => .ok (String.mk ((text.data.drop 4).take (e - 4)))
  else
    .error "No YAML frontmatter found (expected starting \x27---\x27)"

/-- The value group captured by `\s*(.+)\s*$` right after a matched key,
per Python `re` backtracking: skip the maximal whitespace run, and if
nothing is left backtrack to the last non-newline whitespace character;
the group extends to the end of the line. -/
def matchValueAfterKey (rest : List Char) : Option (List Char) :=
  let deep := rest.dropWhile isPyWs
  if deep.isEmpty then
    match rest.reverse.dropWhile (fun c => c = '\n') with
    | [] => none
    | c :: _ => some [c]
  else
    some (deep.takeWhile (fun c => c ≠ '\n'))

/-- Try the pattern `key\s*(.+)\s*$` at one line start. -/
def tryKeyAtLineStart (key l : List Char) : Option (List Char) :=
  if key.isPrefixOf l then matchValueAfterKey (l.drop key.length) else none

/-- Scan the remaining characters for further line starts (each position
right after a newline) and try the key there, leftmost first. -/
def searchAux (key : List Char) : List Char → Option (List Char)
  | [] => none
  | c :: t =>
    if c = '\n' then
      match tryKeyAtLineStart key t with
      | some v => some v
      | none => searchAux key t
    else searchAux key t

/-- `re.search(r"^key\s*(.+)\s*$", fm, re.MULTILINE)`, returning the
captured group: try the start of the text, then every position following
a newline. -/
def searchKey (key fm : List Char) : Option (List Char) :=
  match tryKeyAtLineStart key fm with
  | some v => some v
  | none => searchAux key fm

/-- Python `str.strip` with an explicit character class. -/
def stripWhile (p : Char → Bool) (l : List Char) : List Char :=
  ((l.dropWhile p).reverse.dropWhile p).reverse

/-- `.strip().strip('"').strip("'")` as applied to both extracted
values. -/
def pyTrimValue (l : List Char) : List Char :=
  stripWhile (fun c => c = '\x27') (stripWhile (fun c => c = '"') (stripWhile isPyWs l))

/-- Python `str.capitalize`: first character uppercased, the rest
lowercased. -/
def pyCapitalize (s : String) : String :=
  match s.data with
  | [] => ""
  | c :: t => String.mk (c.toUpper :: t.map Char.toLower)

/-- Python `str.split` with a one-character separator (empty pieces are
kept). -/
def splitOnChar (sep : Char) : List Char → List (List Char)
  | [] => [[]]
  | c :: t =>
    if c = sep then [] :: splitOnChar sep t
    else
      match splitOnChar sep t with
      | [] => [[c]]
      | h :: rest => (c :: h) :: rest

/-- `_title_from_kebab`: capitalize each hyphen-separated part and join
with spaces. -/
def _title_from_kebab (name : String) : String :=
  String.intercalate " "
    ((splitOnChar '-' name.data).map (fun part => pyCapitalize (String.mk part)))

/-! ### `quick_validate_skill.py` -/

/-- The characters of the literal `"name:"` in the name regex. -/
def nameKey : List Char := ['n', 'a', 'm', 'e', ':']

/-- The characters of the literal `"description:"` in the description
regex. -/
def descKey : List Char :=
  ['d', 'e', 's', 'c', 'r', 'i', 'p', 't', 'i', 'o', 'n', ':']

/-- Error text for a frontmatter name that does not match the directory
name. -/
def nameMismatchMsg (name dirName : String) : String :=
  "Frontmatter name \x27" ++ name ++ "\x27 must match directory name \x27"
    ++ dirName ++ "\x27"

/-- `validate_skill_dir` from `quick_validate_skill.py` (the
`skill_dir.resolve()` call is modelled as the identity, paths being
already absolute and resolved): check the directory, `SKILL.md`, the
frontmatter, the `name` field, and the `description` field, failing at
the first violation. -/
def validate_skill_dir (fs : Fs) (skill_dir : FsPath) : Except String Unit :=
  match fsFind fs skill_dir with
  | none => .error ("Skill directory not found: " ++ pathStr skill_dir)
  | some Entry.dir =>
    match fsFind fs (skill_dir ++ ["SKILL.md"]) with
    | none => .error ("SKILL.md not found: " ++ pathStr (skill_dir ++ ["SKILL.md"]))
    | some (Entry.file content) =>
      match _extract_frontmatter content with
      | .error e => .error e
      | .ok frontmatter =>
        match searchKey nameKey frontmatter.data with
        | none => .error "Missing \x27name:\x27 in YAML frontmatter"
        | some v =>
          let name := pyTrimValue v
          if name.length < 1 ∨ name.length > 64 then
            .error ("name must be 1-64 characters (got " ++ toString name.length ++ ")")
          else if !(kebabMatch name) then
            .error "name must be lowercase a-z0-9 plus single hyphens (no --, no leading/trailing -)"
          else if name ≠ (lastName skill_dir).data then
            .error (nameMismatchMsg (String.mk name) (lastName skill_dir))
          else
            match searchKey descKey frontmatter.data with
            | none => .error "Missing \x27description:\x27 in YAML frontmatter"
            | some dv =>
              let description := pyTrimValue dv
              if description.length < 1 then
                .error "description must not be empty"
              else if description.length > 1024 then
                .error ("description must be max 1024 characters (got "
                  ++ toString description.length ++ ")")
              else if description.contains '<' || description.contains '>' then
                .error "description must not contain angle brackets (< or >)"
              else
                .ok ()
    | some _ =>
      .error ("SKILL.md is not a regular file: " ++ pathStr (skill_dir ++ ["SKILL.md"]))
  | some _ => .error ("Not a directory: " ++ pathStr skill_dir)

/-- The text of `SKILL.md` when the path holds a regular file. -/
def skillContent (fs : Fs) (skill_dir : FsPath) : Option String :=
  match fsFind fs (skill_dir ++ ["SKILL.md"]) with
  | some (Entry.file c) => some c
  | _ => none

/-- The trimmed `name` value the validator works with, when every stage
up to its extraction succeeds. -/
def extractedName (fs : Fs) (skill_dir : FsPath) : Option (List Char) :=
  match skillContent fs skill_dir with
  | none => none
  | some c =>
    match _extract_frontmatter c with
    | .error _ => none
    | .ok fm =>
      match searchKey nameKey fm.data with
      | none => none
      | some v => some (pyTrimValue v)

/-- The trimmed `description` value the validator works with, when every
stage up to its extraction succeeds. -/
def extractedDescription (fs : Fs) (skill_dir : FsPath) : Option (List Char) :=
  match skillContent fs skill_dir with
  | none => none
  | some c =>
    match _extract_frontmatter c with
    | .error _ => none
    | .ok fm =>
      match searchKey descKey fm.data with
      | none => none
      | some v => some (pyTrimValue v)

/-- The name rule the validator enforces, applied to the extracted
value: present, 1-64 characters, kebab-case, equal to the directory
name. -/
def nameOkFor (dirName : String) : Option (List Char) → Bool
  | none => false
  | some n =>
    decide (1 ≤ n.length) && decide (n.length ≤ 64) && kebabMatch n
      && decide (n = dirName.data)

/-- The description rule the validator enforces, applied to the
extracted value: present, 1-1024 characters, no angle brackets. -/
def descriptionOk : Option (List Char) → Bool
  | none => false
  | some d =>
    decide (1 ≤ d.length) && decide (d.length ≤ 1024)
      && !(d.contains '<') && !(d.contains '>')

/-! ### `init_skill.py` -/

/-- `_validate_skill_name`: length first, then the kebab-case regex. -/
def _validate_skill_name (name : String) : Except String Unit :=
  if name.data.length < 1 ∨ name.data.length > 64 then
    .error "skill-name must be 1-64 characters"
  else if !(kebabMatch name.data) then
    .error "skill-name must be lowercase a-z0-9 plus single hyphens (no --, no leading/trailing -)"
  else
    .ok ()

/-- The `SKILL.md` template written by `init_skill`, literal for
literal. -/
def skillMdContent (skill_name : String) : String :=
  "---\n"
    ++ ("name: " ++ skill_name ++ "\n")
    ++ "description: \"[TODO] Describe what this skill does and when to use it. Include discovery keywords.\"\n"
    ++ "---\n\n"
    ++ ("# " ++ _title_from_kebab skill_name ++ "\n\n")
    ++ "## When to Use\n\n"
    ++ "- [TODO] Situations and triggers\n\n"
    ++ "## Quick Navigation\n\n"
    ++ "- Topic A: `references/topic-a.md`\n\n"
    ++ "## Steps / Recipes\n\n"
    ++ "1. [TODO]\n\n"
    ++ "## Critical Prohibitions\n\n"
    ++ "- [TODO]\n\n"
    ++ "## Links\n\n"
    ++ "- [TODO] External references\n"

/-- The `README.md` template written by `init_skill`. -/
def readmeContent (skill_name : String) : String :=
  "# " ++ _title_from_kebab skill_name
    ++ "\n\n[TODO] Brief description for human readers.\n\n## Quick Navigation\n\n- [SKILL.md](SKILL.md) — Entry point for agents\n- [references/](references/) — Detailed documentation\n"

/-- The description line of the skill template, without its trailing
newline. -/
def descLine : List Char :=
  "description: \"[TODO] Describe what this skill does and when to use it. Include discovery keywords.\"".data

/-- The raw value the name/description regex captures from the
template's description line. -/
def descValRaw : List Char :=
  "\"[TODO] Describe what this skill does and when to use it. Include discovery keywords.\"".data

/-- Everything of the skill template after the title. -/
def skillBody : List Char :=
  "\n\n## When to Use\n\n- [TODO] Situations and triggers\n\n## Quick Navigation\n\n- Topic A: `references/topic-a.md`\n\n## Steps / Recipes\n\n1. [TODO]\n\n## Critical Prohibitions\n\n- [TODO]\n\n## Links\n\n- [TODO] External references\n".data

/-- `init_skill`: validate the name, create the skill directory
(failing when it already exists), write `SKILL.md` (failing when it
already exists), create `references/` when missing and `README.md` when
missing.  The filesystem reached at the failure point is returned
alongside the error, mirroring the absence of rollback. -/
def init_skill (fs : Fs) (skill_name : String) (skills_root : FsPath) :
    Fs × Except String FsPath :=
  match _validate_skill_name skill_name with
  | .error e => (fs, .error e)
  | .ok () =>
    let skill_dir := skills_root ++ [skill_name]
    if pathExists fs skill_dir then
      (fs, .error ("Path already exists: " ++ pathStr skill_dir))
    else
      let fs1 := mkdirParents fs skill_dir
      let skill_md := skill_dir ++ ["SKILL.md"]
      if pathExists fs1 skill_md then
        (fs1, .error ("File already exists: " ++ pathStr skill_md))
      else
        let fs2 := mkdirParents fs1 skill_dir
        let fs3 := fsSet fs2 skill_md (Entry.file (skillMdContent skill_name))
        let refs := skill_dir ++ ["references"]
        let fs4 := if pathExists fs3 refs then fs3 else fsSet fs3 refs Entry.dir
        let readme := skill_dir ++ ["README.md"]
        let fs5 :=
          if pathExists fs4 readme then fs4
          else fsSet fs4 readme (Entry.file (readmeContent skill_name))
        (fs5, .ok skill_dir)

/-! ### `init_copilot_asset.py` -/

/-- `_validate_instruction_topic`. -/
def _validate_instruction_topic (topic : String) : Except String Unit :=
  if topic.data.length < 1 ∨ topic.data.length > 64 then
    .error "topic must be 1..64 characters"
  else if !(kebabMatch topic.data) then
    .error "topic must be lower-kebab-case: a-z0-9 plus single hyphens"
  else
    .ok ()

/-- The instruction template, with the `applyTo` value spliced in
verbatim, literal for literal. -/
def instructionContent (topic apply_to : String) : String :=
  "---\n"
    ++ "description: \"[TODO] Briefly describe the norms/standards enforced for files matched by applyTo.\"\n"
    ++ ("applyTo: \"" ++ apply_to ++ "\"\n")
    ++ "---\n\n"
    ++ ("# " ++ _title_from_kebab topic ++ "\n\n")
    ++ "## MUST\n\n"
    ++ "- [TODO]\n\n"
    ++ "## MUST NOT\n\n"
    ++ "- [TODO]\n\n"
    ++ "## Examples\n\n"
    ++ "[TODO]\n"

/-- `init_instruction`: validate the topic, require a non-empty
`apply_to`, then write the templated file (failing when it exists,
creating parent directories otherwise). -/
def init_instruction (fs : Fs) (instructions_root : FsPath)
    (topic apply_to : String) : Fs × Except String FsPath :=
  match _validate_instruction_topic topic with
  | .error e => (fs, .error e)
  | .ok () =>
    if apply_to = "" then (fs, .error "--apply-to is required")
    else
      let instruction_path := instructions_root ++ [topic ++ ".instructions.md"]
      if pathExists fs instruction_path then
        (fs, .error ("File already exists: " ++ pathStr instruction_path))
      else
        let fs1 := mkdirParents fs instructions_root
        (fsSet fs1 instruction_path (Entry.file (instructionContent topic apply_to)),
          .ok instruction_path)

/-! ### `package_skill.py` -/

/-- An entry that `zipfile` can read as a plain file (directories and
symbolic links are not regular files). -/
def isRegularFile : Entry → Bool
  | Entry.file _ => true
  | Entry.zip _ => true
  | _ => false

/-- An entry that `Path.is_dir()` reports as a directory.  Links are
skipped by the packager either way, so following them here is not
needed. -/
def isDirEntry : Entry → Bool
  | Entry.dir => true
  | _ => false

/-- `Path.is_symlink()`. -/
def isSymlinkEntry : Entry → Bool
  | Entry.symlink _ => true
  | _ => false

/-- Component-wise symlink resolution, restarting from the (absolute)
link target as `Path.resolve` does.  The fuel, spent once per processed
component, models the kernel's bounded symlink chase; on exhaustion the
remaining components are kept unresolved. -/
def resolveFrom (fs : Fs) : Nat → FsPath → FsPath → FsPath
  | 0, acc, rest => acc ++ rest
  | Nat.succ _, acc, [] => acc
  | Nat.succ f, acc, c :: rest =>
    match fsFind fs (acc ++ [c]) with
    | some (Entry.symlink t) => resolveFrom fs f [] (t ++ rest)
    | _ => resolveFrom fs f (acc ++ [c]) rest

/-- `Path.resolve()` with a budget comfortably above the Linux symlink
limit for the path at hand. -/
def pyResolve (fs : Fs) (p : FsPath) : FsPath :=
  resolveFrom fs (1000 + p.length) [] p

/-- `_iter_files`: every filesystem entry strictly below the skill
directory, in filesystem order, that is not a directory, not a symbolic
link, not named `.DS_Store`, and whose resolved path stays inside the
resolved skill directory. -/
def _iter_files (fs : Fs) (skill_dir : FsPath) : List FsPath :=
  let rootRes := pyResolve fs skill_dir
  (fs.filter (fun pe =>
    skill_dir.isPrefixOf pe.1 && pe.1 ≠ skill_dir
      && !(isDirEntry pe.2)
      && !(isSymlinkEntry pe.2)
      && lastName pe.1 ≠ ".DS_Store"
      && rootRes.isPrefixOf (pyResolve fs pe.1))).map (·.1)

/-- The archive name of a packaged file:
`(Path(skill_dir.name) / path.relative_to(skill_dir)).as_posix()`. -/
def arcString (skill_dir p : FsPath) : String :=
  String.intercalate "/" (lastName skill_dir :: p.drop skill_dir.length)

/-- The bytes `zf.write` reads (the payload of an inner archive is left
abstract). -/
def fileContent (fs : Fs) (p : FsPath) : String :=
  match fsFind fs p with
  | some (Entry.file c) => c
  | _ => ""

/-- The entry list of the produced archive, in enumeration order. -/
def archiveEntries (fs : Fs) (skill_dir : FsPath) : List (String × String) :=
  (_iter_files fs skill_dir).map (fun p => (arcString skill_dir p, fileContent fs p))

/-- Error text for an already existing archive. -/
def archiveConflictMsg (zipPath : FsPath) : String :=
  "Refusing to overwrite existing archive: " ++ pathStr zipPath
    ++ ". Delete it or choose a different --out directory."

/-- The core of `package_skill.py`'s `main` (after argument parsing):
validate, create the output directory, refuse an existing archive path,
then write the zip of the enumerated files. -/
def package_skill (fs : Fs) (skill_dir out_dir : FsPath) :
    Fs × Except String FsPath :=
  match validate_skill_dir fs skill_dir with
  | .error e => (fs, .error e)
  | .ok () =>
    let fs1 := mkdirParents fs out_dir
    let zipPath := out_dir ++ [lastName skill_dir ++ ".zip"]
    if pathExists fs1 zipPath then
      (fs1, .error (archiveConflictMsg zipPath))
    else
      (fsSet fs1 zipPath (Entry.zip (archiveEntries fs1 skill_dir)), .ok zipPath)

/-- `needle in hay` for character lists (`str.__contains__`). -/
def containsSub (needle hay : List Char) : Bool :=
  (findSubAux needle hay 0).isSome

/-- Modelled from the spec sentence, for comparison with the code:
"ends with the next occurrence of the same marker line" — some complete
line after the opening one is exactly `---`. -/
def specHasClosingMarkerLine (text : String) : Bool :=
  ((splitOnChar '\n' text.data).drop 1).contains ['-', '-', '-']

/-- A concrete valid skill filesystem, used as witness input. -/
def fsValid : Fs :=
  [(["s"], Entry.dir),
   (["s", "SKILL.md"], Entry.file "---\nname: s\ndescription: okay\n---\nbody")]

/-- A concrete skill filesystem whose frontmatter name differs from the
directory name, used as witness input. -/
def fsMismatch : Fs :=
  [(["t"], Entry.dir),
   (["t", "SKILL.md"], Entry.file "---\nname: s\ndescription: okay\n---\nbody")]

/-- A concrete valid skill filesystem with extra files, a dot-file and a
`.DS_Store`, used as witness input for the packager. -/
def fsPack : Fs :=
  [(["s"], Entry.dir),
   (["s", "SKILL.md"], Entry.file "---\nname: s\ndescription: okay\n---\nbody"),
   (["s", "references"], Entry.dir),
   (["s", "references", "a.md"], Entry.file "A"),
   (["s", ".DS_Store"], Entry.file "junk"),
   (["s", ".hidden"], Entry.file "h")]

/-! ### Supporting lemmas: substring search -/

/-- A witnessed occurrence makes `findSubAux` succeed. -/
theorem findSubAux_isSome_of_occurs (needle : List Char) :
    ∀ (hay : List Char) (i0 j : Nat), needle.isPrefixOf (hay.drop j) = true →
      (findSubAux needle hay i0).isSome = true := by
  intro hay
  induction hay with
  | nil =>
    intro i0 j h
    simp only [List.drop_nil] at h
    cases needle with
    | nil => simp [findSubAux, List.isEmpty]
    | cons c t => simp [List.isPrefixOf] at h
  | cons c t ih =>
    intro i0 j h
    by_cases hp : needle.isPrefixOf (c :: t) = true
    · simp [findSubAux, hp]
    · cases j with
      | zero => simp only [List.drop_zero] at h; exact absurd h hp
      | succ j =>
        simp only [List.drop_succ_cons] at h
        simp only [findSubAux, hp]
        simp only [Bool.not_eq_true] at hp
        rw [if_neg (by simp [hp])]
        exact ih (i0 + 1) j h

/-- Membership of a prefix-shaped occurrence. -/
theorem containsSub_of_surround (needle pre post : List Char) :
    containsSub needle (pre ++ (needle ++ post)) = true := by
  apply findSubAux_isSome_of_occurs needle _ 0 pre.length
  rw [List.drop_left, List.isPrefixOf_iff_prefix]
  exact List.prefix_append needle post

/-! ### Supporting lemmas: the filesystem model -/

theorem fsFind_fsSet_self (fs : Fs) (p : FsPath) (e : Entry) :
    fsFind (fsSet fs p e) p = some e := by
  simp [fsFind, fsSet]

theorem fsFind_fsSet_ne (fs : Fs) (p q : FsPath) (e : Entry) (h : p ≠ q) :
    fsFind (fsSet fs p e) q = fsFind fs q := by
  simp [fsFind, fsSet, h]

/-- The fold in `mkdirParents` never erases an entry that is already
present. -/
theorem mkdirFold_keeps (L : List FsPath) :
    ∀ (fs : Fs) (q : FsPath) (e : Entry), fsFind fs q = some e →
      fsFind (L.foldl (fun f r => if pathExists f r then f else fsSet f r Entry.dir) fs) q
        = some e := by
  induction L with
  | nil => intro fs q e h; simpa using h
  | cons r rest ih =>
    intro fs q e h
    simp only [List.foldl_cons]
    by_cases hr : pathExists fs r = true
    · rw [if_pos hr]; exact ih fs q e h
    · rw [if_neg hr]
      apply ih
      by_cases hq : r = q
      · subst hq
        simp [pathExists, h, Option.isSome] at hr
      · rw [fsFind_fsSet_ne _ _ _ _ hq]; exact h

/-- The fold in `mkdirParents` leaves paths outside the worked list
untouched. -/
theorem mkdirFold_not_mem (L : List FsPath) :
    ∀ (fs : Fs) (q : FsPath), q ∉ L →
      fsFind (L.foldl (fun f r => if pathExists f r then f else fsSet f r Entry.dir) fs) q
        = fsFind fs q := by
  induction L with
  | nil => intro fs q _; rfl
  | cons r rest ih =>
    intro fs q hq
    simp only [List.mem_cons, not_or] at hq
    simp only [List.foldl_cons]
    by_cases hr : pathExists fs r = true
    · rw [if_pos hr]; exact ih fs q hq.2
    · rw [if_neg hr, ih (fsSet fs r Entry.dir) q hq.2]
      exact fsFind_fsSet_ne fs r q Entry.dir (fun he => hq.1 he.symm)

/-- A path of the worked list that was absent ends up as a directory. -/
theorem mkdirFold_mem_fresh (L : List FsPath) :
    ∀ (fs : Fs) (q : FsPath), q ∈ L → fsFind fs q = none →
      fsFind (L.foldl (fun f r => if pathExists f r then f else fsSet f r Entry.dir) fs) q
        = some Entry.dir := by
  induction L with
  | nil => intro fs q h _; simp at h
  | cons r rest ih =>
    intro fs q hq hnone
    simp only [List.foldl_cons]
    by_cases he : r = q
    · subst he
      rw [if_neg (by simp [pathExists, hnone])]
      exact mkdirFold_keeps rest _ r Entry.dir (fsFind_fsSet_self fs r Entry.dir)
    · have hq2 : q ∈ rest := by
        rcases List.mem_cons.mp hq with h | h
        · exact absurd h.symm he
        · exact h
      by_cases hr : pathExists fs r = true
      · rw [if_pos hr]; exact ih fs q hq2 hnone
      · rw [if_neg hr]
        exact ih _ q hq2 ((fsFind_fsSet_ne fs r q Entry.dir he).trans hnone)

/-- Members of `pathPrefixes p` are nonempty prefixes of `p`. -/
theorem mem_pathPrefixes (p : FsPath) :
    ∀ q, q ∈ pathPrefixes p → q ≠ [] ∧ q <+: p := by
  induction p with
  | nil => intro q h; simp [pathPrefixes] at h
  | cons c rest ih =>
    intro q h
    simp only [pathPrefixes, List.mem_cons, List.mem_map] at h
    rcases h with h | ⟨r, hr, hq⟩
    · subst h
      exact ⟨by simp, ⟨rest, rfl⟩⟩
    · subst hq
      rcases ih r hr with ⟨hne, hpre⟩
      exact ⟨by simp, (List.prefix_cons_inj c).mpr hpre⟩

/-- A nonempty path is a member of its own prefix list. -/
theorem self_mem_pathPrefixes (p : FsPath) (h : p ≠ []) : p ∈ pathPrefixes p := by
  induction p with
  | nil => exact absurd rfl h
  | cons c rest ih =>
    simp only [pathPrefixes, List.mem_cons, List.mem_map]
    cases rest with
    | nil => left; rfl
    | cons d r2 => right; exact ⟨d :: r2, ih (by simp), rfl⟩

theorem fsFind_mkdirParents_self (fs : Fs) (p : FsPath) (hne : p ≠ [])
    (h : fsFind fs p = none) :
    fsFind (mkdirParents fs p) p = some Entry.dir :=
  mkdirFold_mem_fresh (pathPrefixes p) fs p (self_mem_pathPrefixes p hne) h

theorem fsFind_mkdirParents_keeps (fs : Fs) (p q : FsPath) (e : Entry)
    (h : fsFind fs q = some e) :
    fsFind (mkdirParents fs p) q = some e :=
  mkdirFold_keeps (pathPrefixes p) fs q e h

/-- `mkdirParents` does not touch paths that are not nonempty prefixes
of its argument. -/
theorem fsFind_mkdirParents_outside (fs : Fs) (p q : FsPath)
    (h : ¬ q <+: p) :
    fsFind (mkdirParents fs p) q = fsFind fs q := by
  apply mkdirFold_not_mem
  intro hmem
  exact h (mem_pathPrefixes p q hmem).2

/-! ### Claim C3 -/

/-- C3: for every identifier violating the kebab-case/length rule
(empty, uppercase, consecutive hyphens, leading or trailing hyphen, or
longer than 64 characters), `init_skill` fails with the
invalid-identifier error of `_validate_skill_name`, and the returned
filesystem is exactly the input filesystem: no write happened. -/
theorem init_skill_invalid_name_rejected (fs : Fs) (name : String) (root : FsPath)
    (h : name.data.length < 1 ∨ name.data.length > 64 ∨ kebabMatch name.data = false) :
    init_skill fs name root =
      (fs, .error (if name.data.length < 1 ∨ name.data.length > 64
        then "skill-name must be 1-64 characters"
        else "skill-name must be lowercase a-z0-9 plus single hyphens (no --, no leading/trailing -)")) := by
  have hv : _validate_skill_name name =
      .error (if name.data.length < 1 ∨ name.data.length > 64
        then "skill-name must be 1-64 characters"
        else "skill-name must be lowercase a-z0-9 plus single hyphens (no --, no leading/trailing -)") := by
    unfold _validate_skill_name
    by_cases hlen : name.data.length < 1 ∨ name.data.length > 64
    · simp only [if_pos hlen]
    · have hk : kebabMatch name.data = false := by
        rcases h with h1 | h1 | h1
        · exact absurd (Or.inl h1) hlen
        · exact absurd (Or.inr h1) hlen
        · exact h1
      simp only [if_neg hlen, hk, Bool.not_false, if_pos]
  unfold init_skill
  rw [hv]

/-- C3 witness: the spec example `PDF_Processing` is rejected with the
invalid-identifier error and no filesystem change. -/
theorem init_skill_invalid_name_rejected_witness :
    init_skill [(["r"], Entry.dir)] "PDF_Processing" ["r"] =
      ([(["r"], Entry.dir)],
        .error "skill-name must be lowercase a-z0-9 plus single hyphens (no --, no leading/trailing -)") := by
  have h := init_skill_invalid_name_rejected [(["r"], Entry.dir)] "PDF_Processing" ["r"]
    (Or.inr (Or.inr (by decide)))
  rw [h]
  decide

/-! ### Claim C9 -/

/-- C9: `init_instruction` fails (touching nothing) when the apply-to
pattern is empty, and on success the written file is the instruction
template, in which the supplied apply-to string occurs verbatim inside
the `applyTo:` field. -/
theorem init_instruction_applyTo (fs : Fs) (root : FsPath) (topic apply_to : String) :
    (apply_to = "" → _validate_instruction_topic topic = .ok () →
      init_instruction fs root topic apply_to = (fs, .error "--apply-to is required"))
    ∧ (∀ (fs2 : Fs) (p : FsPath),
        init_instruction fs root topic apply_to = (fs2, .ok p) →
        p = root ++ [topic ++ ".instructions.md"]
          ∧ fsFind fs2 p = some (Entry.file (instructionContent topic apply_to))
          ∧ containsSub ("applyTo: \"" ++ apply_to ++ "\"").data
              (instructionContent topic apply_to).data = true) := by
  constructor
  · intro ha hv
    simp [init_instruction, hv, ha]
  · intro fs2 p hinit
    unfold init_instruction at hinit
    rcases hval : _validate_instruction_topic topic with e | u
    · rw [hval] at hinit; cases hinit
    · rw [hval] at hinit
      by_cases ha : apply_to = ""
      · rw [if_pos ha] at hinit; cases hinit
      · rw [if_neg ha] at hinit
        by_cases hex : pathExists fs (root ++ [topic ++ ".instructions.md"]) = true
        · rw [if_pos hex] at hinit; cases hinit
        · rw [if_neg hex] at hinit
          injection hinit with hfs hp
          injection hp with hp
          subst hp
          refine ⟨rfl, ?_, ?_⟩
          · rw [← hfs]; exact fsFind_fsSet_self _ _ _
          · have hshape : (instructionContent topic apply_to).data =
                ("---\n"
                  ++ "description: \"[TODO] Briefly describe the norms/standards enforced for files matched by applyTo.\"\n").data
                ++ (("applyTo: \"" ++ apply_to ++ "\"").data
                  ++ ("\n" ++ ("---\n\n"
                      ++ ("# " ++ _title_from_kebab topic ++ "\n\n")
                      ++ "## MUST\n\n" ++ "- [TODO]\n\n" ++ "## MUST NOT\n\n"
                      ++ "- [TODO]\n\n" ++ "## Examples\n\n" ++ "[TODO]\n")).data) := by
              simp only [instructionContent, String.data_append, List.append_assoc,
                List.cons_append, List.nil_append]
            rw [hshape]
            exact containsSub_of_surround _ _ _

/-- C9 witness: concrete runs of both halves — the empty apply-to is
refused without filesystem change, and a successful run writes the
template with the pattern verbatim. -/
theorem init_instruction_applyTo_witness :
    (init_instruction [] [".github"] "db-rls" "" = ([], .error "--apply-to is required"))
    ∧ ([".github", "db-rls.instructions.md"] = [".github"] ++ ["db-rls" ++ ".instructions.md"]
        ∧ fsFind (init_instruction [] [".github"] "db-rls" "src/a.py").1
            [".github", "db-rls.instructions.md"]
            = some (Entry.file (instructionContent "db-rls" "src/a.py"))
        ∧ containsSub ("applyTo: \"" ++ "src/a.py" ++ "\"").data
            (instructionContent "db-rls" "src/a.py").data = true) := by
  constructor
  · exact (init_instruction_applyTo [] [".github"] "db-rls" "").1 rfl (by decide)
  · exact (init_instruction_applyTo [] [".github"] "db-rls" "src/a.py").2
      (init_instruction [] [".github"] "db-rls" "src/a.py").1
      [".github", "db-rls.instructions.md"] (by decide)

/-! ### Supporting lemmas: `str.find` as least occurrence -/

/-- When the needle occurs nowhere, the search fails. -/
theorem findSubAux_eq_none (needle : List Char) :
    ∀ (hay : List Char) (i : Nat),
      (∀ j, needle.isPrefixOf (hay.drop j) = false) →
      findSubAux needle hay i = none := by
  intro hay
  induction hay with
  | nil =>
    intro i h
    have h0 := h 0
    cases needle with
    | nil => simp [List.isPrefixOf] at h0
    | cons c t => simp [findSubAux, List.isEmpty]
  | cons c t ih =>
    intro i h
    have h0 := h 0
    simp only [List.drop_zero] at h0
    simp only [findSubAux, h0, if_false, Bool.false_eq_true]
    exact ih (i + 1) (fun j => h (j + 1))

/-- The search returns the least occurrence. -/
theorem findSubAux_eq_some (needle : List Char) :
    ∀ (hay : List Char) (i j : Nat),
      needle.isPrefixOf (hay.drop j) = true →
      (∀ k, k < j → needle.isPrefixOf (hay.drop k) = false) →
      findSubAux needle hay i = some (i + j) := by
  intro hay
  induction hay with
  | nil =>
    intro i j hj hmin
    rcases Nat.eq_zero_or_pos j with h0 | h0
    · subst h0
      simp only [List.drop_nil] at hj
      cases needle with
      | nil => simp [findSubAux, List.isEmpty]
      | cons c t => simp [List.isPrefixOf] at hj
    · have := hmin 0 h0
      simp only [List.drop_nil] at this hj
      rw [this] at hj
      cases hj
  | cons c t ih =>
    intro i j hj hmin
    cases j with
    | zero =>
      simp only [List.drop_zero] at hj
      simp [findSubAux, hj]
    | succ j2 =>
      have h0 := hmin 0 (Nat.succ_pos j2)
      simp only [List.drop_zero] at h0
      simp only [findSubAux, h0, if_false, Bool.false_eq_true]
      have := ih (i + 1) j2 (by simpa using hj)
        (fun k hk => by simpa using hmin (k + 1) (Nat.succ_lt_succ hk))
      rw [this]
      congr 1
      omega

/-! ### Supporting lemma: inverting a successful validation -/

/-- Everything a successful `validate_skill_dir` run guarantees: the
directory exists, `SKILL.md` is a regular file whose frontmatter
extracts, and both extracted fields pass all their checks. -/
theorem validate_ok_inversion (fs : Fs) (p : FsPath)
    (h : validate_skill_dir fs p = .ok ()) :
    fsFind fs p = some Entry.dir
    ∧ ∃ c fm, skillContent fs p = some c
        ∧ _extract_frontmatter c = .ok fm
        ∧ (∃ v, searchKey nameKey fm.data = some v
            ∧ 1 ≤ (pyTrimValue v).length ∧ (pyTrimValue v).length ≤ 64
            ∧ kebabMatch (pyTrimValue v) = true
            ∧ pyTrimValue v = (lastName p).data)
        ∧ (∃ w, searchKey descKey fm.data = some w
            ∧ 1 ≤ (pyTrimValue w).length ∧ (pyTrimValue w).length ≤ 1024
            ∧ (pyTrimValue w).contains '<' = false
            ∧ (pyTrimValue w).contains '>' = false) := by
  unfold validate_skill_dir at h
  rcases h1 : fsFind fs p with _ | e
  · simp only [h1] at h; exact Except.noConfusion h
  · simp only [h1] at h
    cases e with
    | dir =>
      rcases h2 : fsFind fs (p ++ ["SKILL.md"]) with _ | me
      · simp only [h2] at h; exact Except.noConfusion h
      · simp only [h2] at h
        cases me with
        | file c =>
          rcases h3 : _extract_frontmatter c with e3 | fm
          · simp only [h3] at h; exact Except.noConfusion h
          · simp only [h3] at h
            rcases h4 : searchKey nameKey fm.data with _ | v
            · simp only [h4] at h; exact Except.noConfusion h
            · simp only [h4] at h
              by_cases h5 : (pyTrimValue v).length < 1 ∨ (pyTrimValue v).length > 64
              · rw [if_pos h5] at h; cases h
              · rw [if_neg h5] at h
                push_neg at h5
                rcases h6 : kebabMatch (pyTrimValue v) with _ | _
                · simp only [h6, Bool.not_false, if_pos] at h
                  exact Except.noConfusion h
                · simp only [h6, Bool.not_true, Bool.false_eq_true, if_false] at h
                  by_cases h7 : pyTrimValue v = (lastName p).data
                  · rw [if_neg (by simpa using h7)] at h
                    rcases h8 : searchKey descKey fm.data with _ | w
                    · simp only [h8] at h; exact Except.noConfusion h
                    · simp only [h8] at h
                      by_cases h9 : (pyTrimValue w).length < 1
                      · rw [if_pos h9] at h; cases h
                      · rw [if_neg h9] at h
                        by_cases h10 : (pyTrimValue w).length > 1024
                        · rw [if_pos h10] at h; cases h
                        · rw [if_neg h10] at h
                          rcases h11 : ((pyTrimValue w).contains '<'
                              || (pyTrimValue w).contains '>') with _ | _
                          · rw [h11] at h
                            simp only [Bool.false_eq_true, if_false] at h
                            have h12 := Bool.or_eq_false_iff.mp h11
                            exact ⟨rfl, c, fm, by simp [skillContent, h2], h3,
                              ⟨v, h4, by omega, h5.2, h6, h7⟩,
                              ⟨w, h8, by omega, by omega, h12.1, h12.2⟩⟩
                          · rw [h11] at h; simp only [if_pos] at h; cases h
                  · rw [if_pos (by simpa using h7)] at h; cases h
        | dir => simp only [h2] at h; exact Except.noConfusion h
        | symlink t => simp only [h2] at h; exact Except.noConfusion h
        | zip z => simp only [h2] at h; exact Except.noConfusion h
    | file c => simp only [h1] at h; exact Except.noConfusion h
    | symlink t => simp only [h1] at h; exact Except.noConfusion h
    | zip z => simp only [h1] at h; exact Except.noConfusion h

/-! ### Claim C7 -/

/-- A path is never a prefix of a strictly shorter one. -/
theorem not_pref_of_longer (a : FsPath) (x : String) : ¬ (a ++ [x] <+: a) := by
  intro hp
  have := hp.length_le
  simp at this

/-- C7: `package_skill` computes the archive path as
`out_dir/<skill name>.zip`; when that path already exists (for a skill
that passes validation, so that the check is reached) it fails with the
archive-conflict error, and the entry at the archive path is exactly
what it was before the call. -/
theorem package_skill_conflict (fs : Fs) (skill_dir out_dir : FsPath) :
    (∀ (fs2 : Fs) (p : FsPath), package_skill fs skill_dir out_dir = (fs2, .ok p) →
      p = out_dir ++ [lastName skill_dir ++ ".zip"])
    ∧ (validate_skill_dir fs skill_dir = .ok () →
        pathExists fs (out_dir ++ [lastName skill_dir ++ ".zip"]) = true →
        package_skill fs skill_dir out_dir =
          (mkdirParents fs out_dir,
            .error (archiveConflictMsg (out_dir ++ [lastName skill_dir ++ ".zip"])))
        ∧ fsFind (mkdirParents fs out_dir) (out_dir ++ [lastName skill_dir ++ ".zip"])
            = fsFind fs (out_dir ++ [lastName skill_dir ++ ".zip"])) := by
  have huntouched : fsFind (mkdirParents fs out_dir) (out_dir ++ [lastName skill_dir ++ ".zip"])
      = fsFind fs (out_dir ++ [lastName skill_dir ++ ".zip"]) :=
    fsFind_mkdirParents_outside fs out_dir _ (not_pref_of_longer out_dir _)
  constructor
  · intro fs2 p hpk
    unfold package_skill at hpk
    rcases hval : validate_skill_dir fs skill_dir with e | u
    · rw [hval] at hpk; cases hpk
    · rw [hval] at hpk
      by_cases hex : pathExists (mkdirParents fs out_dir)
          (out_dir ++ [lastName skill_dir ++ ".zip"]) = true
      · rw [if_pos hex] at hpk; cases hpk
      · rw [if_neg hex] at hpk
        injection hpk with _ hp
        injection hp with hp
        exact hp.symm
  · intro hval hex
    have hex1 : pathExists (mkdirParents fs out_dir)
        (out_dir ++ [lastName skill_dir ++ ".zip"]) = true := by
      rw [pathExists, huntouched]; exact hex
    refine ⟨?_, huntouched⟩
    unfold package_skill
    rw [hval, if_pos hex1]

/-- C7 witness: packaging a valid skill into an output directory that
already holds `s.zip` is refused and leaves the old archive in place. -/
theorem package_skill_conflict_witness :
    package_skill
        [(["s"], Entry.dir),
         (["s", "SKILL.md"], Entry.file "---\nname: s\ndescription: okay\n---\n"),
         (["dist"], Entry.dir), (["dist", "s.zip"], Entry.file "old")]
        ["s"] ["dist"] =
      (mkdirParents
        [(["s"], Entry.dir),
         (["s", "SKILL.md"], Entry.file "---\nname: s\ndescription: okay\n---\n"),
         (["dist"], Entry.dir), (["dist", "s.zip"], Entry.file "old")] ["dist"],
        .error (archiveConflictMsg (["dist"] ++ [lastName ["s"] ++ ".zip"])))
    ∧ fsFind (mkdirParents
        [(["s"], Entry.dir),
         (["s", "SKILL.md"], Entry.file "---\nname: s\ndescription: okay\n---\n"),
         (["dist"], Entry.dir), (["dist", "s.zip"], Entry.file "old")] ["dist"])
        (["dist"] ++ [lastName ["s"] ++ ".zip"])
      = fsFind
        [(["s"], Entry.dir),
         (["s", "SKILL.md"], Entry.file "---\nname: s\ndescription: okay\n---\n"),
         (["dist"], Entry.dir), (["dist", "s.zip"], Entry.file "old")]
        (["dist"] ++ [lastName ["s"] ++ ".zip"]) :=
  (package_skill_conflict
      [(["s"], Entry.dir),
       (["s", "SKILL.md"], Entry.file "---\nname: s\ndescription: okay\n---\n"),
       (["dist"], Entry.dir), (["dist", "s.zip"], Entry.file "old")]
      ["s"] ["dist"]).2 (by decide) (by decide)

/-! ### Claim C6 -/

/-- C6: whenever `validate_skill_dir` succeeds, the description it
extracted is present, 1-1024 characters long after trimming, and free
of angle brackets; contrapositively a missing, empty, over-long, or
angle-bracketed description makes validation fail, whatever its
length. -/
theorem validate_description_checks (fs : Fs) (skill_dir : FsPath)
    (h : validate_skill_dir fs skill_dir = .ok ()) :
    descriptionOk (extractedDescription fs skill_dir) = true := by
  obtain ⟨-, c, fm, hc, hfm, -, w, hw, h1, h2, h3, h4⟩ :=
    validate_ok_inversion fs skill_dir h
  unfold extractedDescription
  simp only [hc, hfm, hw]
  simp only [descriptionOk]
  rw [h3, h4, decide_eq_true h1, decide_eq_true h2]
  rfl

/-- C6 witness: the checks hold on a concrete validated skill. -/
theorem validate_description_checks_witness :
    descriptionOk (extractedDescription fsValid ["s"]) = true :=
  validate_description_checks fsValid ["s"] (by decide)

/-! ### Claim C5 -/

/-- C5: whenever `validate_skill_dir` succeeds, the extracted name is
present, 1-64 characters, kebab-case, and equal to the directory name;
and when every earlier stage passes but the (well-formed) name differs
from the directory name, validation fails with exactly the
name-mismatch error. -/
theorem validate_name_checks (fs : Fs) (skill_dir : FsPath) :
    (validate_skill_dir fs skill_dir = .ok () →
      nameOkFor (lastName skill_dir) (extractedName fs skill_dir) = true)
    ∧ (∀ (c fm : String) (v : List Char),
        fsFind fs skill_dir = some Entry.dir →
        fsFind fs (skill_dir ++ ["SKILL.md"]) = some (Entry.file c) →
        _extract_frontmatter c = .ok fm →
        searchKey nameKey fm.data = some v →
        1 ≤ (pyTrimValue v).length → (pyTrimValue v).length ≤ 64 →
        kebabMatch (pyTrimValue v) = true →
        pyTrimValue v ≠ (lastName skill_dir).data →
        validate_skill_dir fs skill_dir =
          .error (nameMismatchMsg (String.mk (pyTrimValue v)) (lastName skill_dir))) := by
  constructor
  · intro h
    obtain ⟨-, c, fm, hc, hfm, ⟨v, hv, h1, h2, h3, h4⟩, -⟩ :=
      validate_ok_inversion fs skill_dir h
    unfold extractedName
    simp only [hc, hfm, hv]
    simp only [nameOkFor]
    rw [h3, decide_eq_true h1, decide_eq_true h2, decide_eq_true h4]
    rfl
  · intro c fm v hdir hmd hfm hv hl1 hl2 hk hne
    unfold validate_skill_dir
    simp only [hdir, hmd, hfm, hv]
    rw [if_neg (show ¬ ((pyTrimValue v).length < 1 ∨ (pyTrimValue v).length > 64) by omega)]
    simp only [hk, Bool.not_true, Bool.false_eq_true, if_false]
    rw [if_pos (by simpa using hne)]

/-- C5 witness: the name checks hold on a concrete validated skill, and
a concrete mismatching skill fails with the name-mismatch error. -/
theorem validate_name_checks_witness :
    nameOkFor (lastName ["s"]) (extractedName fsValid ["s"]) = true
    ∧ validate_skill_dir fsMismatch ["t"] =
        .error (nameMismatchMsg (String.mk (pyTrimValue ['s'])) (lastName ["t"])) :=
  ⟨(validate_name_checks fsValid ["s"]).1 (by decide),
   (validate_name_checks fsMismatch ["t"]).2
      "---\nname: s\ndescription: okay\n---\nbody" "name: s\ndescription: okay" ['s']
      (by decide) (by decide) (by decide) (by decide)
      (by decide) (by decide) (by decide) (by decide)⟩

/-! ### Claim C2 -/

/-- C2 counterexample: in `"---\nabc\n----\n"` no complete line after
the opening one equals the marker line `---`, yet extraction succeeds
(the code searches for the four characters `"\n---"`, which the line
`----` provides), so "failing when that closing marker line is absent"
is false of the code. -/
theorem extract_frontmatter_marker_counterexample :
    specHasClosingMarkerLine "---\nabc\n----\n" = false
      ∧ _extract_frontmatter "---\nabc\n----\n" = .ok "abc" := by
  constructor
  · decide
  · decide

/-- C2 (amended): `validate_skill_dir` fails whenever the `SKILL.md`
document does not begin with `---` followed by a newline; and
`_extract_frontmatter` fails exactly when no occurrence of
newline-then-`---` (which need not be a complete marker line) exists at
index 4 or later, otherwise returning the text strictly between index 4
and the least such occurrence. -/
theorem extract_frontmatter_bounds (fs : Fs) (skill_dir : FsPath) (text : String) :
    (skillContent fs skill_dir = some text → markerStart text = false →
      validate_skill_dir fs skill_dir ≠ .ok ())
    ∧ (markerStart text = false →
        _extract_frontmatter text =
          .error "No YAML frontmatter found (expected starting \x27---\x27)")
    ∧ (markerStart text = true →
        (∀ j, j ≤ text.data.length → occursAt nlMarker (text.data.drop 4) j = false) →
        _extract_frontmatter text =
          .error "Invalid YAML frontmatter (missing closing \x27---\x27)")
    ∧ (∀ j, markerStart text = true →
        occursAt nlMarker (text.data.drop 4) j = true →
        (∀ k, k < j → occursAt nlMarker (text.data.drop 4) k = false) →
        _extract_frontmatter text = .ok (String.mk ((text.data.drop 4).take j))) := by
  refine ⟨?_, ?_, ?_, ?_⟩
  · intro hc hm hok
    obtain ⟨-, c2, fm, hc2, hfm, -, -⟩ := validate_ok_inversion fs skill_dir hok
    rw [hc] at hc2
    injection hc2 with hc2
    subst hc2
    rw [_extract_frontmatter, hm] at hfm
    simp at hfm
  · intro hm
    rw [_extract_frontmatter, hm]
    simp
  · intro hm hnone
    have hall : ∀ j, nlMarker.isPrefixOf ((text.data.drop 4).drop j) = false := by
      intro j
      by_cases hj : j ≤ text.data.length
      · exact hnone j hj
      · rw [List.drop_eq_nil_of_le]
        · rfl
        · have hlen : (text.data.drop 4).length = text.data.length - 4 := by simp
          omega
    rw [_extract_frontmatter, hm]
    simp only [if_pos]
    rw [findSubAux_eq_none nlMarker (text.data.drop 4) 4 hall]
  · intro j hm hocc hmin
    rw [_extract_frontmatter, hm]
    simp only [if_pos]
    rw [findSubAux_eq_some nlMarker (text.data.drop 4) 4 j hocc (fun k hk => hmin k hk)]
    simp

/-- C2 witness: both failure modes and the success slice on concrete
documents, obtained from the theorem. -/
theorem extract_frontmatter_bounds_witness :
    (_extract_frontmatter "nope" =
        .error "No YAML frontmatter found (expected starting \x27---\x27)")
    ∧ (_extract_frontmatter "---\nabc" =
        .error "Invalid YAML frontmatter (missing closing \x27---\x27)")
    ∧ (_extract_frontmatter "---\nname: x\n---\n" =
        .ok (String.mk (("---\nname: x\n---\n".data.drop 4).take 7))) :=
  ⟨(extract_frontmatter_bounds [] [] "nope").2.1 (by decide),
   (extract_frontmatter_bounds [] [] "---\nabc").2.2.1 (by decide) (by decide),
   (extract_frontmatter_bounds [] [] "---\nname: x\n---\n").2.2.2 7
      (by decide) (by decide) (by decide)⟩

/-! ### Supporting lemmas: the packager's file enumeration -/

/-- A successful lookup comes from a member of the association list. -/
theorem fsFind_mem (fs : Fs) (p : FsPath) (e : Entry) (h : fsFind fs p = some e) :
    (p, e) ∈ fs := by
  induction fs with
  | nil => cases h
  | cons pe t ih =>
    obtain ⟨q, e2⟩ := pe
    by_cases hq : q = p
    · subst hq
      rw [fsFind, if_pos rfl] at h
      injection h with h
      subst h
      exact List.mem_cons_self _ _
    · rw [fsFind, if_neg hq] at h
      exact List.mem_cons_of_mem _ (ih h)

/-- With duplicate-free keys, membership determines the lookup. -/
theorem fsFind_of_mem_nodup (fs : Fs) (hnd : (fs.map Prod.fst).Nodup)
    (p : FsPath) (e : Entry) (h : (p, e) ∈ fs) :
    fsFind fs p = some e := by
  induction fs with
  | nil => cases h
  | cons pe t ih =>
    obtain ⟨q, e2⟩ := pe
    simp only [List.map_cons, List.nodup_cons] at hnd
    rcases List.mem_cons.mp h with h1 | h1
    · injection h1 with hq he
      subst hq; subst he
      rw [fsFind, if_pos rfl]
    · have hq : q ≠ p := by
        intro hqp
        subst hqp
        exact hnd.1 (List.mem_map.mpr ⟨(q, e), h1, rfl⟩)
      rw [fsFind, if_neg hq]
      exact ih hnd.2 h1

/-- A regular file is exactly a non-directory, non-symlink entry. -/
theorem isRegularFile_iff (e : Entry) :
    isRegularFile e = (!isDirEntry e && !isSymlinkEntry e) := by
  cases e <;> rfl

/-- Membership in the packager's enumeration, characterized: exactly
the entries strictly below the skill directory that are regular files,
are not named `.DS_Store`, and resolve inside the resolved skill
directory. -/
theorem mem_iter_files (fs : Fs) (skill_dir : FsPath)
    (hnd : (fs.map Prod.fst).Nodup) (p : FsPath) :
    p ∈ _iter_files fs skill_dir ↔
      ∃ e, fsFind fs p = some e
        ∧ skill_dir <+: p ∧ p ≠ skill_dir
        ∧ isRegularFile e = true
        ∧ lastName p ≠ ".DS_Store"
        ∧ (pyResolve fs skill_dir) <+: (pyResolve fs p) := by
  unfold _iter_files
  simp only [List.mem_map, List.mem_filter]
  constructor
  · rintro ⟨⟨q, e⟩, ⟨hmem, hcond⟩, hq⟩
    subst hq
    simp only [Bool.and_eq_true, decide_eq_true_eq, Bool.not_eq_true] at hcond
    obtain ⟨⟨⟨⟨⟨hpre, hne⟩, hdir⟩, hsym⟩, hds⟩, hres⟩ := hcond
    refine ⟨e, fsFind_of_mem_nodup fs hnd _ e hmem, ?_, hne, ?_, hds, ?_⟩
    · exact List.isPrefixOf_iff_prefix.mp hpre
    · rw [isRegularFile_iff]
      simp [hdir, hsym]
    · exact List.isPrefixOf_iff_prefix.mp hres
  · rintro ⟨e, hfind, hpre, hne, hreg, hds, hres⟩
    refine ⟨(p, e), ⟨fsFind_mem fs p e hfind, ?_⟩, rfl⟩
    rw [isRegularFile_iff] at hreg
    simp only [Bool.and_eq_true, Bool.not_eq_true] at hreg
    simp only [Bool.and_eq_true, decide_eq_true_eq, Bool.not_eq_true]
    exact ⟨⟨⟨⟨⟨List.isPrefixOf_iff_prefix.mpr hpre, hne⟩, hreg.1⟩, hreg.2⟩, hds⟩,
      List.isPrefixOf_iff_prefix.mpr hres⟩

/-- The enumeration has no duplicates when the filesystem keys have
none. -/
theorem iter_files_nodup (fs : Fs) (skill_dir : FsPath)
    (hnd : (fs.map Prod.fst).Nodup) :
    (_iter_files fs skill_dir).Nodup := by
  unfold _iter_files
  exact hnd.sublist (List.Sublist.map Prod.fst (List.filter_sublist fs))

/-! ### Claim C10 -/

/-- C10: for an entry strictly under the skill directory that is a
regular non-symlink file resolving inside the tree, membership in the
packager's enumeration is decided exactly by its file name not being
`.DS_Store`: every other name — dot-files included — is packaged. -/
theorem iter_files_name_exclusion (fs : Fs) (skill_dir p : FsPath) (e : Entry)
    (hnd : (fs.map Prod.fst).Nodup)
    (hpre : skill_dir <+: p) (hne : p ≠ skill_dir)
    (hfind : fsFind fs p = some e) (hreg : isRegularFile e = true)
    (hres : (pyResolve fs skill_dir) <+: (pyResolve fs p)) :
    (p ∈ _iter_files fs skill_dir ↔ lastName p ≠ ".DS_Store") := by
  rw [mem_iter_files fs skill_dir hnd p]
  constructor
  · rintro ⟨e2, he2, -, -, -, hds, -⟩
    exact hds
  · intro hds
    exact ⟨e, hfind, hpre, hne, hreg, hds, hres⟩

/-- C10 witness: the dot-file `.hidden` is enumerated while `.DS_Store`
is not, on a concrete skill tree. -/
theorem iter_files_name_exclusion_witness :
    ["s", ".hidden"] ∈ _iter_files fsPack ["s"]
    ∧ ¬ (["s", ".DS_Store"] ∈ _iter_files fsPack ["s"]) :=
  ⟨(iter_files_name_exclusion fsPack ["s"] ["s", ".hidden"] (Entry.file "h")
      (by decide) (by decide) (by decide) (by decide) (by decide) (by decide)).mpr
      (by decide),
   fun hmem =>
    ((iter_files_name_exclusion fsPack ["s"] ["s", ".DS_Store"] (Entry.file "junk")
      (by decide) (by decide) (by decide) (by decide) (by decide) (by decide)).mp hmem)
      (by decide)⟩

/-! ### Claim C8 -/

/-- C8: on a validated skill directory with a fresh archive path,
`package_skill` writes at the archive path a zip holding one entry per
enumerated file, whose archive names are the skill directory's own name
followed by the file's relative path; the enumeration is duplicate-free
and holds exactly the regular, non-symlink, non-`.DS_Store` files
strictly under the skill directory whose resolved path stays inside. -/
theorem package_skill_archive (fs : Fs) (skill_dir out_dir : FsPath)
    (hval : validate_skill_dir fs skill_dir = .ok ())
    (hfresh : pathExists (mkdirParents fs out_dir)
      (out_dir ++ [lastName skill_dir ++ ".zip"]) = false)
    (hnd : ((mkdirParents fs out_dir).map Prod.fst).Nodup) :
    package_skill fs skill_dir out_dir =
      (fsSet (mkdirParents fs out_dir) (out_dir ++ [lastName skill_dir ++ ".zip"])
        (Entry.zip ((_iter_files (mkdirParents fs out_dir) skill_dir).map
          (fun p => (arcString skill_dir p, fileContent (mkdirParents fs out_dir) p)))),
       .ok (out_dir ++ [lastName skill_dir ++ ".zip"]))
    ∧ fsFind (package_skill fs skill_dir out_dir).1
        (out_dir ++ [lastName skill_dir ++ ".zip"])
        = some (Entry.zip ((_iter_files (mkdirParents fs out_dir) skill_dir).map
          (fun p => (arcString skill_dir p, fileContent (mkdirParents fs out_dir) p))))
    ∧ (_iter_files (mkdirParents fs out_dir) skill_dir).Nodup
    ∧ (∀ p, p ∈ _iter_files (mkdirParents fs out_dir) skill_dir ↔
        ∃ e, fsFind (mkdirParents fs out_dir) p = some e
          ∧ skill_dir <+: p ∧ p ≠ skill_dir
          ∧ isRegularFile e = true
          ∧ lastName p ≠ ".DS_Store"
          ∧ (pyResolve (mkdirParents fs out_dir) skill_dir)
              <+: (pyResolve (mkdirParents fs out_dir) p)) := by
  have hmain : package_skill fs skill_dir out_dir =
      (fsSet (mkdirParents fs out_dir) (out_dir ++ [lastName skill_dir ++ ".zip"])
        (Entry.zip ((_iter_files (mkdirParents fs out_dir) skill_dir).map
          (fun p => (arcString skill_dir p, fileContent (mkdirParents fs out_dir) p)))),
       .ok (out_dir ++ [lastName skill_dir ++ ".zip"])) := by
    unfold package_skill
    rw [hval]
    rw [if_neg (by rw [hfresh]; exact Bool.false_ne_true)]
    rfl
  refine ⟨hmain, ?_, iter_files_nodup _ _ hnd, fun p => mem_iter_files _ _ hnd p⟩
  rw [hmain]
  exact fsFind_fsSet_self _ _ _

/-- C8 witness: the archive written for a concrete skill tree holds
exactly its three regular files (the `.DS_Store` dropped), under
name-prefixed paths. -/
theorem package_skill_archive_witness :
    package_skill fsPack ["s"] ["dist"] =
      (fsSet (mkdirParents fsPack ["dist"]) (["dist"] ++ [lastName ["s"] ++ ".zip"])
        (Entry.zip ((_iter_files (mkdirParents fsPack ["dist"]) ["s"]).map
          (fun p => (arcString ["s"] p, fileContent (mkdirParents fsPack ["dist"]) p)))),
       .ok (["dist"] ++ [lastName ["s"] ++ ".zip"])) :=
  (package_skill_archive fsPack ["s"] ["dist"] (by decide) (by decide) (by decide)).1

/-! ### Supporting lemmas: a fresh `init_skill` run -/

/-- Below a fresh subtree every lookup fails. -/
theorem not_exists_of_fresh (fs : Fs) (p q : FsPath)
    (hfresh : freshUnder fs p = true) (hpre : p <+: q) :
    fsFind fs q = none := by
  rcases hfind : fsFind fs q with _ | e
  · rfl
  · have hmem := fsFind_mem fs q e hfind
    have h2 := (List.all_eq_true.mp hfresh) (q, e) hmem
    simp only [Bool.not_eq_true] at h2
    rw [List.isPrefixOf_iff_prefix.mpr hpre] at h2
    cases h2

/-- A conditional write at another path does not change a lookup. -/
theorem fsFind_condSet_ne (f : Fs) (c : Prop) [Decidable c] (p q : FsPath) (e : Entry)
    (h : p ≠ q) :
    fsFind (if c then f else fsSet f p e) q = fsFind f q := by
  by_cases hc : c
  · rw [if_pos hc]
  · rw [if_neg hc]
    exact fsFind_fsSet_ne f p q e h

/-- Appending different last components gives different paths. -/
theorem append_singleton_ne (a : FsPath) (x y : String) (h : x ≠ y) :
    a ++ [x] ≠ a ++ [y] := by
  intro he
  exact h (by simpa using List.append_cancel_left he)

/-- A path differs from any extension of itself. -/
theorem append_singleton_ne_self (a : FsPath) (x : String) : a ++ [x] ≠ a := by
  intro h
  have := congrArg List.length h
  simp at this

/-- What a fresh, validated `init_skill` run produces: success with the
skill directory path, the directory present, and `SKILL.md` holding the
template. -/
theorem init_skill_fresh_spec (fs : Fs) (name : String) (root : FsPath)
    (hval : _validate_skill_name name = .ok ())
    (hfresh : freshUnder fs (root ++ [name]) = true) :
    (init_skill fs name root).2 = .ok (root ++ [name])
    ∧ fsFind (init_skill fs name root).1 (root ++ [name]) = some Entry.dir
    ∧ fsFind (init_skill fs name root).1 (root ++ [name] ++ ["SKILL.md"])
        = some (Entry.file (skillMdContent name)) := by
  have hsdnone : fsFind fs (root ++ [name]) = none :=
    not_exists_of_fresh fs _ _ hfresh (List.prefix_refl _)
  have hex1 : ¬ pathExists fs (root ++ [name]) = true := by
    rw [pathExists, hsdnone]; exact Bool.false_ne_true
  have hmdout : fsFind (mkdirParents fs (root ++ [name])) (root ++ [name] ++ ["SKILL.md"])
      = fsFind fs (root ++ [name] ++ ["SKILL.md"]) :=
    fsFind_mkdirParents_outside fs _ _ (not_pref_of_longer (root ++ [name]) "SKILL.md")
  have hmdnone : fsFind fs (root ++ [name] ++ ["SKILL.md"]) = none :=
    not_exists_of_fresh fs _ _ hfresh ⟨["SKILL.md"], rfl⟩
  have hex2 : ¬ pathExists (mkdirParents fs (root ++ [name]))
      (root ++ [name] ++ ["SKILL.md"]) = true := by
    rw [pathExists, hmdout, hmdnone]; exact Bool.false_ne_true
  unfold init_skill
  rw [hval]
  rw [if_neg hex1, if_neg hex2]
  refine ⟨rfl, ?_, ?_⟩
  · rw [fsFind_condSet_ne _ _ _ _ _ (append_singleton_ne_self (root ++ [name]) "README.md"),
      fsFind_condSet_ne _ _ _ _ _ (append_singleton_ne_self (root ++ [name]) "references"),
      fsFind_fsSet_ne _ _ _ _ (append_singleton_ne_self (root ++ [name]) "SKILL.md")]
    exact fsFind_mkdirParents_keeps _ _ _ _
      (fsFind_mkdirParents_self fs (root ++ [name]) (by simp) hsdnone)
  · rw [fsFind_condSet_ne _ _ _ _ _
        (append_singleton_ne (root ++ [name]) "README.md" "SKILL.md" (by decide)),
      fsFind_condSet_ne _ _ _ _ _
        (append_singleton_ne (root ++ [name]) "references" "SKILL.md" (by decide))]
    exact fsFind_fsSet_self _ _ _

/-! ### Claim C4 -/

/-- C4: for every identifier matching the kebab-case rule (with the
1-64 length bound), `init_skill` into a root that is fresh for it
succeeds, and running `init_skill` again with the same identifier and
root fails with the path-conflict error, changing nothing. -/
theorem init_skill_once_then_conflict (fs : Fs) (name : String) (root : FsPath)
    (hk : kebabMatch name.data = true) (hlen : name.data.length ≤ 64)
    (hfresh : freshUnder fs (root ++ [name]) = true) :
    (init_skill fs name root).2 = .ok (root ++ [name])
    ∧ init_skill (init_skill fs name root).1 name root =
        ((init_skill fs name root).1,
          .error ("Path already exists: " ++ pathStr (root ++ [name]))) := by
  have hne : name.data ≠ [] := by
    intro h0
    rw [h0] at hk
    cases hk
  have hval : _validate_skill_name name = .ok () := by
    unfold _validate_skill_name
    have hpos : 0 < name.data.length := List.length_pos.mpr hne
    rw [if_neg (by omega), if_neg (by rw [hk]; simp)]
  obtain ⟨h1, h2, -⟩ := init_skill_fresh_spec fs name root hval hfresh
  refine ⟨h1, ?_⟩
  set F := (init_skill fs name root).1 with hF
  unfold init_skill
  rw [hval]
  rw [if_pos (by rw [pathExists, h2]; rfl)]

/-- C4 witness: the spec example `pdf-processing` scaffolds once into an
empty filesystem and the second run reports the path conflict. -/
theorem init_skill_once_then_conflict_witness :
    (init_skill [] "pdf-processing" []).2 = .ok ["pdf-processing"]
    ∧ init_skill (init_skill [] "pdf-processing" []).1 "pdf-processing" [] =
        ((init_skill [] "pdf-processing" []).1,
          .error ("Path already exists: " ++ pathStr ["pdf-processing"])) := by
  have h := init_skill_once_then_conflict [] "pdf-processing" []
    (by decide) (by decide) (by decide)
  simpa using h

/-! ### Supporting lemmas: the template validates -/

/-- The closing-delimiter search skips a newline-free block. -/
theorem findSubAux_skip (l b : List Char) (h : ∀ c ∈ l, c ≠ '\n') :
    ∀ i, findSubAux nlMarker (l ++ b) i = findSubAux nlMarker b (i + l.length) := by
  induction l with
  | nil => intro i; simp
  | cons c t ih =>
    intro i
    have hc : c ≠ '\n' := h c (List.mem_cons_self c t)
    have hpre : nlMarker.isPrefixOf (c :: (t ++ b)) = false := by
      have hbeq : (('\n' : Char) == c) = false :=
        beq_eq_false_iff_ne.mpr (fun he => hc he.symm)
      simp [nlMarker, List.isPrefixOf, hbeq]
    rw [List.cons_append, findSubAux, if_neg (by rw [hpre]; exact Bool.false_ne_true),
      ih (fun c2 hc2 => h c2 (List.mem_cons_of_mem _ hc2)) (i + 1)]
    congr 1
    simp only [List.length_cons]
    omega

/-- The closing-delimiter search succeeds right at the delimiter. -/
theorem findSubAux_nl_hit (r : List Char) (i : Nat) :
    findSubAux nlMarker ('\n' :: '-' :: '-' :: '-' :: r) i = some i := by
  rw [findSubAux, if_pos (by simp [nlMarker, List.isPrefixOf])]

/-- The position the closing-delimiter search finds in a
two-block frontmatter body. -/
theorem findSubAux_two_blocks (A E R : List Char) (i : Nat)
    (hA : ∀ c ∈ A, c ≠ '\n') (hE : ∀ c ∈ E, c ≠ '\n')
    (hne : E ≠ []) (hhead : E.headI ≠ '-') :
    findSubAux nlMarker (A ++ '\n' :: (E ++ '\n' :: ('-' :: '-' :: '-' :: R))) i
      = some (i + A.length + 1 + E.length) := by
  cases E with
  | nil => exact absurd rfl hne
  | cons c0 D =>
    rw [findSubAux_skip A _ hA i]
    have hc0 : c0 ≠ '-' := by simpa using hhead
    have hstep : nlMarker.isPrefixOf
        ('\n' :: ((c0 :: D) ++ '\n' :: ('-' :: '-' :: '-' :: R))) = false := by
      have hbeq : (('-' : Char) == c0) = false :=
        beq_eq_false_iff_ne.mpr (fun he => hc0 he.symm)
      simp [nlMarker, List.isPrefixOf, hbeq]
    rw [findSubAux, if_neg (by rw [hstep]; exact Bool.false_ne_true)]
    rw [findSubAux_skip (c0 :: D) _ hE (i + A.length + 1)]
    rw [findSubAux_nl_hit]

/-- Taking up to the end of the second block. -/
theorem take_two_blocks (A E Z : List Char) :
    (A ++ '\n' :: (E ++ Z)).take (A.length + 1 + E.length) = A ++ '\n' :: E := by
  rw [show A.length + 1 + E.length = A.length + (E.length + 1) by omega]
  rw [List.take_append, List.take_succ_cons, List.take_left]

/-- Every character of a kebab-case match is a lowercase alphanumeric or
a hyphen. -/
theorem kebab_chars : ∀ (b : Bool) (l : List Char), kebabFrom b l = true →
    ∀ c ∈ l, isLowerAlnum c = true ∨ c = '-' := by
  intro b l
  induction l generalizing b with
  | nil => intro _ c hc; cases hc
  | cons c0 t ih =>
    intro h c hc
    rw [kebabFrom] at h
    by_cases hc0 : c0 = '-'
    · rw [if_pos hc0, Bool.and_eq_true] at h
      rcases List.mem_cons.mp hc with h1 | h1
      · subst h1; right; exact hc0
      · exact ih true h.2 c h1
    · rw [if_neg hc0, Bool.and_eq_true] at h
      rcases List.mem_cons.mp hc with h1 | h1
      · subst h1; left; exact h.1
      · exact ih false h.2 c h1

/-- A kebab-case match opens with a lowercase alphanumeric. -/
theorem kebab_head (c : Char) (t : List Char) (h : kebabMatch (c :: t) = true) :
    isLowerAlnum c = true := by
  rw [kebabMatch, kebabFrom] at h
  by_cases hc : c = '-'
  · rw [if_pos hc] at h; simp at h
  · rw [if_neg hc, Bool.and_eq_true] at h; exact h.1

/-- A kebab character differs from any non-alphanumeric non-hyphen. -/
theorem kebabChar_ne (c x : Char) (h : isLowerAlnum c = true ∨ c = '-')
    (hx1 : isLowerAlnum x = false) (hx2 : x ≠ '-') : c ≠ x := by
  intro he
  subst he
  rcases h with h | h
  · rw [h] at hx1; cases hx1
  · exact hx2 h

/-- Kebab characters are not Python whitespace. -/
theorem kebab_not_ws (c : Char) (h : isLowerAlnum c = true ∨ c = '-') :
    isPyWs c = false := by
  rcases hw : isPyWs c with _ | _
  · rfl
  · exfalso
    simp only [isPyWs, Bool.or_eq_true, decide_eq_true_eq] at hw
    rcases hw with ((((h1 | h1) | h1) | h1) | h1) | h1 <;>
      (subst h1; exact absurd h (by decide))

/-- `str.strip` is the identity when no character is in the class. -/
theorem stripWhile_id (p : Char → Bool) (l : List Char)
    (h : ∀ c ∈ l, p c = false) : stripWhile p l = l := by
  have hdrop : ∀ (m : List Char), (∀ c ∈ m, p c = false) → m.dropWhile p = m := by
    intro m hm
    cases m with
    | nil => rfl
    | cons c t =>
      rw [List.dropWhile_cons,
        if_neg (by rw [hm c (List.mem_cons_self c t)]; exact Bool.false_ne_true)]
  unfold stripWhile
  rw [hdrop l h, hdrop l.reverse (fun c hc => h c (List.mem_reverse.mp hc)),
    List.reverse_reverse]

/-- Trimming does not change a kebab-case value. -/
theorem pyTrimValue_kebab (l : List Char)
    (h : ∀ c ∈ l, isLowerAlnum c = true ∨ c = '-') : pyTrimValue l = l := by
  unfold pyTrimValue
  rw [stripWhile_id isPyWs l (fun c hc => kebab_not_ws c (h c hc)),
    stripWhile_id _ l (fun c hc =>
      decide_eq_false (kebabChar_ne c '"' (h c hc) (by decide) (by decide))),
    stripWhile_id _ l (fun c hc =>
      decide_eq_false (kebabChar_ne c '\x27' (h c hc) (by decide) (by decide)))]

/-- The multiline search skips a newline-free block. -/
theorem searchAux_skip (key l b : List Char) (h : ∀ c ∈ l, c ≠ '\n') :
    searchAux key (l ++ b) = searchAux key b := by
  induction l with
  | nil => rfl
  | cons c t ih =>
    rw [List.cons_append, searchAux, if_neg (h c (List.mem_cons_self c t))]
    exact ih (fun c2 hc2 => h c2 (List.mem_cons_of_mem _ hc2))

/-- Extracting the frontmatter of the freshly written template yields
exactly its `name` line followed by its description line. -/
theorem extract_template (name : String) (hnl : ∀ c ∈ name.data, c ≠ '\n') :
    _extract_frontmatter (skillMdContent name) =
      .ok (String.mk ('n' :: 'a' :: 'm' :: 'e' :: ':' :: ' ' ::
        (name.data ++ '\n' :: descLine))) := by
  have hshape : (skillMdContent name).data =
      '-' :: '-' :: '-' :: '\n' ::
        (("name: ".data ++ name.data) ++ '\n' ::
          (descLine ++ '\n' :: ('-' :: '-' :: '-' ::
            ('\n' :: '\n' :: '#' :: ' ' ::
              ((_title_from_kebab name).data ++ skillBody))))) := by
    simp only [skillMdContent, descLine, skillBody, String.data_append,
      List.append_assoc, List.cons_append, List.nil_append]
  have hA : ∀ c ∈ "name: ".data ++ name.data, c ≠ '\n' := by
    intro c hc
    rcases List.mem_append.mp hc with h1 | h1
    · exact (by decide : ∀ c ∈ "name: ".data, c ≠ '\n') c h1
    · exact hnl c h1
  unfold _extract_frontmatter
  have hms : markerStart (skillMdContent name) = true := by
    rw [markerStart, hshape]
    rfl
  rw [if_pos hms]
  have hdrop : (skillMdContent name).data.drop 4 =
      ("name: ".data ++ name.data) ++ '\n' ::
        (descLine ++ '\n' :: ('-' :: '-' :: '-' ::
          ('\n' :: '\n' :: '#' :: ' ' ::
            ((_title_from_kebab name).data ++ skillBody)))) := by
    rw [hshape]
    rfl
  rw [hdrop,
    findSubAux_two_blocks ("name: ".data ++ name.data) descLine _ 4 hA
      (by decide) (by decide) (by decide)]
  have harith : ∀ x y : Nat, 4 + x + 1 + y - 4 = x + 1 + y := by
    intro x y; omega
  simp only [harith]
  rw [take_two_blocks]
  simp

/-- The name search on the template frontmatter captures exactly the
skill name. -/
theorem searchKey_name_template (name : String) (hk : kebabMatch name.data = true) :
    searchKey nameKey ('n' :: 'a' :: 'm' :: 'e' :: ':' :: ' ' ::
        (name.data ++ '\n' :: descLine))
      = some name.data := by
  obtain ⟨c0, t, hct⟩ : ∃ c0 t, name.data = c0 :: t := by
    cases hnd : name.data with
    | nil => rw [hnd] at hk; exact absurd hk (by decide)
    | cons a b => exact ⟨a, b, rfl⟩
  have hc0 : isLowerAlnum c0 = true := kebab_head c0 t (hct ▸ hk)
  have hchars := kebab_chars true name.data hk
  have htry : tryKeyAtLineStart nameKey ('n' :: 'a' :: 'm' :: 'e' :: ':' :: ' ' ::
      (name.data ++ '\n' :: descLine)) = some name.data := by
    unfold tryKeyAtLineStart
    rw [if_pos (by rfl)]
    show matchValueAfterKey (' ' :: (name.data ++ '\n' :: descLine)) = some name.data
    have hdeep : (' ' :: (name.data ++ '\n' :: descLine)).dropWhile isPyWs
        = name.data ++ '\n' :: descLine := by
      rw [List.dropWhile_cons, if_pos (by decide), hct, List.cons_append,
        List.dropWhile_cons,
        if_neg (by rw [kebab_not_ws c0 (Or.inl hc0)]; exact Bool.false_ne_true),
        ← List.cons_append, ← hct]
    unfold matchValueAfterKey
    simp only [hdeep]
    rw [if_neg (by rw [hct]; simp [List.isEmpty])]
    have htake : (name.data ++ '\n' :: descLine).takeWhile
        (fun c => decide (c ≠ '\n')) = name.data := by
      rw [List.takeWhile_append_of_pos
          (fun a ha => decide_eq_true (kebabChar_ne a '\n' (hchars a ha)
            (by decide) (by decide))),
        List.takeWhile_cons, if_neg (by simp)]
      simp
    rw [htake]
  unfold searchKey
  rw [htry]

/-- The description search on the template frontmatter captures the
quoted placeholder description. -/
theorem searchKey_desc_template (name : String) (hnl : ∀ c ∈ name.data, c ≠ '\n') :
    searchKey descKey ('n' :: 'a' :: 'm' :: 'e' :: ':' :: ' ' ::
        (name.data ++ '\n' :: descLine))
      = some descValRaw := by
  have hfalse : descKey.isPrefixOf ('n' :: 'a' :: 'm' :: 'e' :: ':' :: ' ' ::
      (name.data ++ '\n' :: descLine)) = false := rfl
  have htry0 : tryKeyAtLineStart descKey ('n' :: 'a' :: 'm' :: 'e' :: ':' :: ' ' ::
      (name.data ++ '\n' :: descLine)) = none := by
    unfold tryKeyAtLineStart
    rw [hfalse]
    simp
  unfold searchKey
  rw [htry0]
  show searchAux descKey ('n' :: 'a' :: 'm' :: 'e' :: ':' :: ' ' ::
      (name.data ++ '\n' :: descLine)) = some descValRaw
  have hskip : searchAux descKey (('n' :: 'a' :: 'm' :: 'e' :: ':' :: ' ' :: name.data)
        ++ '\n' :: descLine)
      = searchAux descKey ('\n' :: descLine) := by
    apply searchAux_skip
    intro c hc
    rcases List.mem_cons.mp hc with h1 | h1
    · subst h1; decide
    · rcases List.mem_cons.mp h1 with h1 | h1
      · subst h1; decide
      · rcases List.mem_cons.mp h1 with h1 | h1
        · subst h1; decide
        · rcases List.mem_cons.mp h1 with h1 | h1
          · subst h1; decide
          · rcases List.mem_cons.mp h1 with h1 | h1
            · subst h1; decide
            · rcases List.mem_cons.mp h1 with h1 | h1
              · subst h1; decide
              · exact hnl c h1
  rw [show ('n' :: 'a' :: 'm' :: 'e' :: ':' :: ' ' :: (name.data ++ '\n' :: descLine))
      = (('n' :: 'a' :: 'm' :: 'e' :: ':' :: ' ' :: name.data) ++ '\n' :: descLine)
    by simp, hskip]
  rw [searchAux, if_pos rfl]
  rw [show tryKeyAtLineStart descKey descLine = some descValRaw by decide]

/-! ### Claim C1 -/

/-- C1: for every identifier satisfying the kebab-case/length rule,
scaffolding with `init_skill` into a root that is fresh for it succeeds,
and validating the created directory immediately afterwards succeeds
with no error. -/
theorem init_skill_then_validate (fs : Fs) (name : String) (root : FsPath)
    (hk : kebabMatch name.data = true) (hlen : name.data.length ≤ 64)
    (hfresh : freshUnder fs (root ++ [name]) = true) :
    (init_skill fs name root).2 = .ok (root ++ [name])
    ∧ validate_skill_dir (init_skill fs name root).1 (root ++ [name]) = .ok () := by
  have hchars := kebab_chars true name.data hk
  have hnl : ∀ c ∈ name.data, c ≠ '\n' :=
    fun c hc => kebabChar_ne c '\n' (hchars c hc) (by decide) (by decide)
  have hne : name.data ≠ [] := by
    intro h0
    rw [kebabMatch, h0] at hk
    exact absurd hk (by decide)
  have hpos : 0 < name.data.length := List.length_pos.mpr hne
  have hval : _validate_skill_name name = .ok () := by
    unfold _validate_skill_name
    rw [if_neg (by omega), if_neg (by rw [hk]; simp)]
  obtain ⟨h1, h2, h3⟩ := init_skill_fresh_spec fs name root hval hfresh
  refine ⟨h1, ?_⟩
  unfold validate_skill_dir
  simp only [h2, h3, extract_template name hnl]
  simp only [searchKey_name_template name hk, pyTrimValue_kebab name.data hchars]
  rw [if_neg (show ¬ (name.data.length < 1 ∨ name.data.length > 64) by omega)]
  simp only [hk, Bool.not_true, Bool.false_eq_true, if_false]
  have hlast : (lastName (root ++ [name])).data = name.data := by
    simp only [lastName, List.getLastD_concat]
  rw [if_neg (by rw [hlast]; exact fun hx => hx rfl)]
  simp only [searchKey_desc_template name hnl]
  rw [if_neg (by decide), if_neg (by decide), if_neg (by decide)]

/-- C1 witness: the spec example `pdf-processing` scaffolds into an
empty filesystem and immediately validates. -/
theorem init_skill_then_validate_witness :
    (init_skill [] "pdf-processing" []).2 = .ok ["pdf-processing"]
    ∧ validate_skill_dir (init_skill [] "pdf-processing" []).1 ["pdf-processing"]
        = .ok () := by
  have h := init_skill_then_validate [] "pdf-processing" []
    (by decide) (by decide) (by decide)
  simpa using h

end SkillMaster
